import Mathlib

/-!
Verification development for the CDW-PepsiCo reconciliation / allocation core.

The definitions below are shallow embeddings of the Python sources:
  * scripts/etl/reconciliation_engine.py  (fuzzy matching, merge pass, report)
  * scripts/etl/allocation_engine.py      (distribution strategies, ledger upsert)
Machine reals of the source (Python floats) are modelled as exact rationals;
SQL tables are modelled as Lean lists of rows, with SQL's NULL as Option.none
and SQL's three-valued `=` on nullable columns modelled explicitly.
-/

/-! ## Similarity scorer: difflib.SequenceMatcher as called by fuzzy_match_score

`fuzzy_match_score(str1, str2)` calls
`SequenceMatcher(None, str1.lower(), str2.lower()).ratio() * 100`.
The embedding below models CPython's difflib for the regime in which the
engine runs it: `isjunk = None` and `|b| < 200` (autojunk inactive), names
being short ASCII strings.  In that regime `b2j` holds every position of
every character of `b`, no element is junk, and the four junk/extension
`while` loops of `find_longest_match` never fire (any extension would
contradict maximality of the DP-found block), so they are not re-stated.
-/

/-- Python `str.lower` on the ASCII names handled by the engine. -/
def pyLower (s : List Char) : List Char := s.map Char.toLower

/-- difflib `b2j`: ascending list of the positions of `c` in `b`
(`isjunk = None`, autojunk inactive). -/
def b2j (b : List Char) (c : Char) : List Nat :=
  (List.range b.length).filter (fun j => decide (b.get? j = some c))

/-- One inner iteration family of `find_longest_match`: for a fixed row `i`
holding character `c`, fold over the in-window positions of `c` in `b`,
building `newj2len` and updating the best block.  State is
`(j2len, besti, bestj, bestsize)`; `j2len` is the dict of the previous row,
total with default `0` for absent keys.  Python's `j2len.get(j-1, 0)` reads
key `-1` (absent) when `j = 0`, hence the explicit `j = 0` guard. -/
def flmRow (bj : Char → List Nat) (blo bhi : Nat) (i : Nat) (c : Char)
    (st : (Nat → Nat) × Nat × Nat × Nat) : (Nat → Nat) × Nat × Nat × Nat :=
  let j2len := st.1
  let js := (bj c).filter (fun j => decide (blo ≤ j) && decide (j < bhi))
  js.foldl
    (fun acc j =>
      let k := (if j = 0 then 0 else j2len (j - 1)) + 1
      let nj2 : Nat → Nat := fun x => if x = j then k else acc.1 x
      if acc.2.2.2 < k then (nj2, i + 1 - k, j + 1 - k, k)
      else (nj2, acc.2.1, acc.2.2.1, acc.2.2.2))
    ((fun _ => 0), st.2.1, st.2.2.1, st.2.2.2)

/-- difflib `find_longest_match` restricted to the windows
`a[alo:ahi]`, `b[blo:bhi]` (junk-free regime); returns `(besti, bestj, bestsize)`. -/
def findLongestMatch (a : List Char) (bj : Char → List Nat)
    (alo ahi blo bhi : Nat) : Nat × Nat × Nat :=
  let final := (List.range' alo (ahi - alo)).foldl
    (fun st i => flmRow bj blo bhi i (a.getD i ' ') st)
    ((fun _ => 0), alo, blo, 0)
  (final.2.1, final.2.2.1, final.2.2.2)

/-- Total size of all matching blocks: the recursion of
`get_matching_blocks` (the queue order does not affect the sum, and the
final merging of adjacent blocks preserves it).  `fuel` dominates the
recursion depth; every recursive call strictly shrinks
`(ahi - alo) + (bhi - blo)`, so `|a| + |b| + 1` is always enough. -/
def matchTotal (a : List Char) (bj : Char → List Nat) :
    Nat → Nat → Nat → Nat → Nat → Nat
  | 0, _, _, _, _ => 0
  | fuel + 1, alo, ahi, blo, bhi =>
    let m := findLongestMatch a bj alo ahi blo bhi
    let i := m.1
    let j := m.2.1
    let k := m.2.2
    if k = 0 then 0
    else
      k + (if alo < i ∧ blo < j then matchTotal a bj fuel alo i blo j else 0)
        + (if i + k < ahi ∧ j + k < bhi then matchTotal a bj fuel (i + k) ahi (j + k) bhi else 0)

/-- difflib `ratio()`: `2.0 * M / T`, `1.0` when both sequences are empty
(`_calculate_ratio`). -/
def ratioOf (a b : List Char) : ℚ :=
  let m := matchTotal a (b2j b) (a.length + b.length + 1) 0 a.length 0 b.length
  if a.length + b.length = 0 then 1
  else 2 * (m : ℚ) / ((a.length : ℚ) + (b.length : ℚ))

/-- Embeds `fuzzy_match_score` from reconciliation_engine.py: 0 when either string
is falsy (empty), else the case-folded similarity ratio scaled to 0–100. -/
def fuzzy_match_score (s1 s2 : String) : ℚ :=
  if s1.data = [] ∨ s2.data = [] then 0
  else ratioOf (pyLower s1.data) (pyLower s2.data) * 100

set_option maxRecDepth 16000

example : fuzzy_match_score "aaba" "baaa" = 75 := of_decide_eq_true (by with_unfolding_all rfl)
example : fuzzy_match_score "baaa" "aaba" = 50 := of_decide_eq_true (by with_unfolding_all rfl)
example : fuzzy_match_score "ab" "ab" = 100 := of_decide_eq_true (by with_unfolding_all rfl)
example : fuzzy_match_score "" "ab" = 0 := of_decide_eq_true (by with_unfolding_all rfl)
example : fuzzy_match_score "aa" "bb" = 0 := of_decide_eq_true (by with_unfolding_all rfl)

/-! ## Data model: the tables touched by reconcile_applications

`applications_dim` rows carry the columns the engine reads or writes; SQL
NULL is `Option.none`.  The four dependent fact tables matter to the engine
only through their `app_id` foreign-key column, so each is modelled as the
list of those `app_id` values.  `reconciliation_log` rows model the columns
of the engine's INSERT statements (timestamps are not modelled). -/

structure AppRow where
  app_id : Nat
  appd_application_id : Option Nat
  appd_application_name : Option String
  sn_sys_id : Option String
  sn_service_name : Option String
  owner_id : Option Nat
  sector_id : Option Nat
  architecture_id : Option Nat
  h_code : Option String
  support_group : Option String
deriving DecidableEq

structure LogRow where
  source_a : String
  source_b : String
  match_key_a : String
  match_key_b : String
  confidence_score : ℚ
  match_status : String
  resolved_app_id : Option Nat
  notes : Option String
deriving DecidableEq

structure Db where
  applications_dim : List AppRow
  license_usage_fact : List Nat
  license_cost_fact : List Nat
  chargeback_fact : List Nat
  forecast_fact : List Nat
  reconciliation_log : List LogRow
deriving DecidableEq

/-- SQL equality on a nullable text column (`WHERE sn_sys_id = %s`):
true only when both sides are non-NULL and equal; a NULL on either side
compares unknown, i.e. the row is not selected. -/
def sqlEqStr : Option String → Option String → Bool
  | some x, some y => decide (x = y)
  | _, _ => false

/-! ## Reconciliation pass (reconcile_applications) -/

/-- The three-way threshold classification of a best score
(`if best_score >= 80 … elif best_score >= 50 … else` fall-through). -/
inductive MatchStatus where
  | auto_match
  | needs_review
  | no_match
deriving DecidableEq

def classify_score (s : ℚ) : MatchStatus :=
  if 80 ≤ s then .auto_match else if 50 ≤ s then .needs_review else .no_match

/-- The candidate scan: `best_score = 0`, `best_match = None`, strict
`score > best_score` update, first-encountered wins ties.  The fetch filter
guarantees `sn_service_name` is non-NULL; `getD` only discharges the
`Option`. -/
def bestCandidate (appd_name : String) (snow : List AppRow) : ℚ × Option AppRow :=
  snow.foldl
    (fun best s =>
      let score := fuzzy_match_score appd_name (s.sn_service_name.getD "")
      if best.1 < score then (score, some s) else best)
    (0, none)

/-- Pre-merge conflict guard:
`SELECT … WHERE sn_sys_id = %s AND app_id != %s` + `fetchone`. -/
def conflictCheck (apps : List AppRow) (snow_sys_id : Option String) (appd_id : Nat) :
    Option AppRow :=
  apps.find? (fun r => sqlEqStr r.sn_sys_id snow_sys_id && decide (r.app_id ≠ appd_id))

/-- The merge UPDATE: copy the ServiceNow enrichment columns of the matched
candidate snapshot onto the row(s) whose `app_id` is the AppD entity's
(`updated_at` is not modelled). -/
def snFields (r s : AppRow) : AppRow :=
  { r with sn_sys_id := s.sn_sys_id, sn_service_name := s.sn_service_name,
           owner_id := s.owner_id, sector_id := s.sector_id,
           architecture_id := s.architecture_id, h_code := s.h_code,
           support_group := s.support_group }

def applyMergeUpdate (apps : List AppRow) (appd_id : Nat) (s : AppRow) : List AppRow :=
  apps.map (fun r => if r.app_id = appd_id then snFields r s else r)

/-- UPDATE of the AppD row followed by
`DELETE FROM applications_dim WHERE app_id = snow_id`. -/
def mergeEffect (apps : List AppRow) (appd_id : Nat) (s : AppRow) : List AppRow :=
  (applyMergeUpdate apps appd_id s).filter (fun r => decide (r.app_id ≠ s.app_id))

/-- Embeds `UPDATE <fact> SET app_id = appd_id WHERE app_id = snow_id`. -/
def rehome (tbl : List Nat) (fromId toId : Nat) : List Nat :=
  tbl.map (fun x => if x = fromId then toId else x)

def logConflict (db : Db) (appd_name : String) (s : AppRow) (score : ℚ) (e : AppRow) : Db :=
  { db with reconciliation_log := db.reconciliation_log ++
      [{ source_a := "AppDynamics", source_b := "ServiceNow", match_key_a := appd_name,
         match_key_b := s.sn_service_name.getD "", confidence_score := score,
         match_status := "conflict", resolved_app_id := none,
         notes := some ("ServiceNow app already matched to "
                        ++ e.appd_application_name.getD "None") }] }

def logReview (db : Db) (appd_name : String) (s : AppRow) (score : ℚ) : Db :=
  { db with reconciliation_log := db.reconciliation_log ++
      [{ source_a := "AppDynamics", source_b := "ServiceNow", match_key_a := appd_name,
         match_key_b := s.sn_service_name.getD "", confidence_score := score,
         match_status := "needs_review", resolved_app_id := none, notes := none }] }

/-- All statements of one successful merge: the applications_dim UPDATE and
DELETE, the four fact-table re-homing UPDATEs, and the auto_matched log
INSERT. -/
def mergeDb (db : Db) (appd_id : Nat) (appd_name : String) (s : AppRow) (score : ℚ) : Db :=
  { applications_dim := mergeEffect db.applications_dim appd_id s
    license_usage_fact := rehome db.license_usage_fact s.app_id appd_id
    license_cost_fact := rehome db.license_cost_fact s.app_id appd_id
    chargeback_fact := rehome db.chargeback_fact s.app_id appd_id
    forecast_fact := rehome db.forecast_fact s.app_id appd_id
    reconciliation_log := db.reconciliation_log ++
      [{ source_a := "AppDynamics", source_b := "ServiceNow", match_key_a := appd_name,
         match_key_b := s.sn_service_name.getD "", confidence_score := score,
         match_status := "auto_matched", resolved_app_id := some appd_id, notes := none }] }

/-- One loop body iteration for one AppD entity.  `fail` is the failure
oracle for dependent-ledger UPDATE statements (numbered consecutively
across the pass); a raised statement error aborts the iteration, hence
`none`.  All statements run inside the single psycopg2 transaction, so an
aborted iteration leaves nothing applied-and-kept: pending work is simply
discarded by the caller.  Result: `(db, remaining snow list, next
statement counter, matches increment)`.
The `best.2 = none` arms are unreachable (a classified score of at least 50
forces a candidate) and return the state unchanged. -/
def reconStep (fail : Nat → Bool) (a : AppRow) (snow : List AppRow) (db : Db) (ctr : Nat) :
    Option (Db × List AppRow × Nat × Nat) :=
  let appd_id := a.app_id
  let appd_name := a.appd_application_name.getD ""
  let best := bestCandidate appd_name snow
  match classify_score best.1 with
  | .auto_match =>
    match best.2 with
    | none => some (db, snow, ctr, 0)
    | some s =>
      match conflictCheck db.applications_dim s.sn_sys_id appd_id with
      | some e => some (logConflict db appd_name s best.1 e, snow, ctr, 0)
      | none =>
        if fail ctr ∨ fail (ctr + 1) ∨ fail (ctr + 2) ∨ fail (ctr + 3) then none
        else some (mergeDb db appd_id appd_name s best.1,
                   snow.filter (fun r => decide (r.app_id ≠ s.app_id)), ctr + 4, 1)
  | .needs_review =>
    match best.2 with
    | none => some (db, snow, ctr, 0)
    | some s => some (logReview db appd_name s best.1, snow, ctr, 0)
  | .no_match => some (db, snow, ctr, 0)

inductive PassResult where
  | ok (db : Db) (mcount : Nat)
  | failed (processed : Nat)
deriving DecidableEq

/-- The `for appd_id, appd_name, appd_application_id in appd_apps` loop.
`p` counts fully processed A-entities; an exception escapes the loop (there
is no try/except inside it). -/
def reconLoop (fail : Nat → Bool) :
    List AppRow → List AppRow → Db → Nat → Nat → Nat → PassResult
  | [], _, db, _, mcount, _ => .ok db mcount
  | a :: rest, snow, db, ctr, mcount, p =>
    match reconStep fail a snow db ctr with
    | none => .failed p
    | some (db1, snow1, ctr1, inc) =>
      reconLoop fail rest snow1 db1 ctr1 (mcount + inc) (p + 1)

/-- The two opening snapshot fetches of `reconcile_applications`. -/
def unmatchedA (db : Db) : List AppRow :=
  db.applications_dim.filter
    (fun r => decide (r.sn_sys_id = none) && decide (r.appd_application_name ≠ none))

def unmatchedB (db : Db) : List AppRow :=
  db.applications_dim.filter
    (fun r => decide (r.appd_application_id = none) && decide (r.sn_service_name ≠ none))

/-- Outcome of one call of `reconcile_applications(conn)`.  The function
runs every statement inside one psycopg2 transaction and executes
`conn.commit()` exactly once, after the loop; so on success the pending
state is committed (`commits = 1`), while a statement failure propagates
out before the commit and the transaction is rolled back — the persisted
state is the input state and `commits = 0`. -/
structure RunResult where
  persisted : Db
  matches_made : Option Nat
  commits : Nat
  processed : Nat
deriving DecidableEq

def reconcile_applications (fail : Nat → Bool) (db : Db) : RunResult :=
  match reconLoop fail (unmatchedA db) (unmatchedB db) db 0 0 0 with
  | .ok db1 m =>
    { persisted := db1, matches_made := some m, commits := 1,
      processed := (unmatchedA db).length }
  | .failed p =>
    { persisted := db, matches_made := none, commits := 0, processed := p }

/-! ## Reconciliation report (generate_reconciliation_report)

The report's single SQL statement counts, over the whole
`applications_dim` table: rows with both ids, AppD-only rows, SNOW-only
rows, and all rows; the overall match rate is `matched / total * 100`
(0 when the table is empty, per the Python guard). -/

def report_stats (apps : List AppRow) : Nat × Nat × Nat × Nat :=
  (apps.countP (fun r => decide (r.appd_application_id ≠ none) && decide (r.sn_sys_id ≠ none)),
   apps.countP (fun r => decide (r.appd_application_id ≠ none) && decide (r.sn_sys_id = none)),
   apps.countP (fun r => decide (r.appd_application_id = none) && decide (r.sn_sys_id ≠ none)),
   apps.length)

def reported_match_rate (apps : List AppRow) : ℚ :=
  let stats := report_stats apps
  if 0 < stats.2.2.2 then (stats.1 : ℚ) / (stats.2.2.2 : ℚ) * 100 else 0

/-! ## Invariants of the Entity catalog -/

/-- Primary-key discipline of `applications_dim`: `app_id` values are
pairwise distinct. -/
abbrev pkDistinct (apps : List AppRow) : Prop :=
  apps.Pairwise (fun r s => r.app_id ≠ s.app_id)

/-- The B-identity uniqueness invariant: no two rows hold the same
non-NULL `sn_sys_id`. -/
abbrev bIdUnique (apps : List AppRow) : Prop :=
  apps.Pairwise (fun r s => r.sn_sys_id = none ∨ r.sn_sys_id ≠ s.sn_sys_id)

theorem snFields_app_id (r s : AppRow) : (snFields r s).app_id = r.app_id := rfl

theorem mergeUpdate_app_id (appd_id : Nat) (s r : AppRow) :
    (if r.app_id = appd_id then snFields r s else r).app_id = r.app_id := by
  split <;> rfl

theorem pkDistinct_mergeEffect (apps : List AppRow) (appd_id : Nat) (s : AppRow)
    (h : pkDistinct apps) : pkDistinct (mergeEffect apps appd_id s) := by
  unfold mergeEffect applyMergeUpdate
  refine List.Pairwise.filter _ ?_
  rw [List.pairwise_map]
  refine h.imp ?_
  intro r t hrt
  simpa [mergeUpdate_app_id] using hrt

theorem conflictCheck_none (apps : List AppRow) (sys : Option String) (appd_id : Nat)
    (h : conflictCheck apps sys appd_id = none) :
    ∀ r ∈ apps, sqlEqStr r.sn_sys_id sys = true → r.app_id = appd_id := by
  intro r hr hsq
  have h2 := List.find?_eq_none.mp h r hr
  simp only [Bool.and_eq_true, decide_eq_true_eq, not_and, hsq, true_implies] at h2
  exact not_not.mp (fun hne => h2 (by simpa using hne))

theorem bIdUnique_mergeEffect (apps : List AppRow) (appd_id : Nat) (s : AppRow)
    (hpk : pkDistinct apps) (hb : bIdUnique apps)
    (hc : conflictCheck apps s.sn_sys_id appd_id = none) :
    bIdUnique (mergeEffect apps appd_id s) := by
  have hcc := conflictCheck_none apps s.sn_sys_id appd_id hc
  unfold mergeEffect applyMergeUpdate
  refine List.Pairwise.filter _ ?_
  rw [List.pairwise_map]
  refine (hpk.and hb).imp_of_mem ?_
  intro r t hr ht hrt
  obtain ⟨hne, hbo⟩ := hrt
  by_cases h1 : r.app_id = appd_id <;> by_cases h2 : t.app_id = appd_id
  · exact absurd (h1.trans h2.symm) hne
  · -- r is updated to carry the candidate's sn_sys_id, t is untouched
    simp only [h1, h2, if_true, if_false]
    rcases hs : s.sn_sys_id with _ | v
    · left; simp [snFields, hs]
    · right
      simp only [snFields, hs]
      intro heq
      have hts : sqlEqStr t.sn_sys_id s.sn_sys_id = true := by
        simp [sqlEqStr, ← heq, hs]
      exact h2 (hcc t ht hts)
  · -- t is updated, r is untouched
    simp only [h1, h2, if_true, if_false]
    rcases hs : s.sn_sys_id with _ | v
    · rcases hr2 : r.sn_sys_id with _ | w
      · left; rfl
      · right; simp [snFields, hs, hr2]
    · rcases hr2 : r.sn_sys_id with _ | w
      · left; rfl
      · right
        simp only [snFields, hs, hr2]
        intro heq
        have hrs : sqlEqStr r.sn_sys_id s.sn_sys_id = true := by
          simp [sqlEqStr, hr2, hs, Option.some.injEq] at heq ⊢
          exact heq
        exact h1 (hcc r hr hrs)
  · simpa [h1, h2] using hbo

theorem reconStep_inv (fail : Nat → Bool) (a : AppRow) (snow : List AppRow) (db : Db)
    (ctr : Nat) (hpk : pkDistinct db.applications_dim) (hb : bIdUnique db.applications_dim) :
    ∀ out, reconStep fail a snow db ctr = some out →
      pkDistinct out.1.applications_dim ∧ bIdUnique out.1.applications_dim := by
  intro out hstep
  unfold reconStep at hstep
  rcases hcl : classify_score (bestCandidate (a.appd_application_name.getD "") snow).1 with _ | _ | _ <;>
    simp only [hcl] at hstep
  · rcases hbm : (bestCandidate (a.appd_application_name.getD "") snow).2 with _ | s <;>
      simp only [hbm] at hstep
    · obtain ⟨rfl⟩ := Option.some.inj hstep
      exact ⟨hpk, hb⟩
    · rcases hcf : conflictCheck db.applications_dim s.sn_sys_id a.app_id with _ | e <;>
        simp only [hcf] at hstep
      · split at hstep
        · exact absurd hstep (by simp)
        · obtain ⟨rfl⟩ := Option.some.inj hstep
          exact ⟨pkDistinct_mergeEffect _ _ _ hpk, bIdUnique_mergeEffect _ _ _ hpk hb hcf⟩
      · obtain ⟨rfl⟩ := Option.some.inj hstep
        exact ⟨hpk, hb⟩
  · rcases hbm : (bestCandidate (a.appd_application_name.getD "") snow).2 with _ | s <;>
      simp only [hbm] at hstep <;> obtain ⟨rfl⟩ := Option.some.inj hstep
    · exact ⟨hpk, hb⟩
    · exact ⟨hpk, hb⟩
  · obtain ⟨rfl⟩ := Option.some.inj hstep
    exact ⟨hpk, hb⟩

theorem reconLoop_inv (fail : Nat → Bool) :
    ∀ (aL snow : List AppRow) (db : Db) (ctr m p : Nat) (db1 : Db) (m1 : Nat),
      pkDistinct db.applications_dim → bIdUnique db.applications_dim →
      reconLoop fail aL snow db ctr m p = .ok db1 m1 →
      pkDistinct db1.applications_dim ∧ bIdUnique db1.applications_dim := by
  intro aL
  induction aL with
  | nil =>
    intro snow db ctr m p db1 m1 hpk hb h
    obtain ⟨rfl, rfl⟩ : db = db1 ∧ m = m1 := by
      simpa [reconLoop] using h
    exact ⟨hpk, hb⟩
  | cons a rest ih =>
    intro snow db ctr m p db1 m1 hpk hb h
    rw [reconLoop] at h
    rcases hstep : reconStep fail a snow db ctr with _ | out
    · rw [hstep] at h; exact absurd h (by simp)
    · rw [hstep] at h
      obtain ⟨hpk1, hb1⟩ := reconStep_inv fail a snow db ctr hpk hb out hstep
      exact ih out.2.1 out.1 out.2.2.1 (m + out.2.2.2) (p + 1) db1 m1 hpk1 hb1 h

/-- Claim C1.  The Reconciliation pass preserves B-identity uniqueness:
for every Entity catalog satisfying the primary-key discipline in which no
two live rows hold the same non-null `sn_sys_id`, after one complete run of
`reconcile_applications` (under any dependent-ledger failure behaviour) no
two surviving rows hold the same non-null `sn_sys_id`. -/
theorem C1_no_double_claim (fail : Nat → Bool) (db : Db)
    (hpk : pkDistinct db.applications_dim) (hb : bIdUnique db.applications_dim) :
    bIdUnique (reconcile_applications fail db).persisted.applications_dim := by
  unfold reconcile_applications
  cases hres : reconLoop fail (unmatchedA db) (unmatchedB db) db 0 0 0 with
  | ok db1 m1 =>
    exact (reconLoop_inv fail (unmatchedA db) (unmatchedB db) db 0 0 0 db1 m1 hpk hb hres).2
  | failed p => exact hb

def dbC1w : Db :=
  { applications_dim :=
      [{ app_id := 1, appd_application_id := some 10, appd_application_name := some "ab",
         sn_sys_id := none, sn_service_name := none, owner_id := none, sector_id := none,
         architecture_id := none, h_code := none, support_group := none },
       { app_id := 2, appd_application_id := none, appd_application_name := none,
         sn_sys_id := none, sn_service_name := some "ab", owner_id := some 7,
         sector_id := some 3, architecture_id := none, h_code := some "H1",
         support_group := none },
       { app_id := 3, appd_application_id := some 30, appd_application_name := some "zz",
         sn_sys_id := some "sysZ", sn_service_name := some "zz", owner_id := none,
         sector_id := none, architecture_id := none, h_code := none, support_group := none }]
    license_usage_fact := [2, 3]
    license_cost_fact := [2]
    chargeback_fact := []
    forecast_fact := []
    reconciliation_log := [] }

/-- Witness for C1 on a concrete catalog in which an auto-match merge
actually happens. -/
theorem C1_no_double_claim_witness :
    pkDistinct dbC1w.applications_dim ∧ bIdUnique dbC1w.applications_dim ∧
      bIdUnique (reconcile_applications (fun _ => false) dbC1w).persisted.applications_dim :=
  ⟨by decide, by decide,
   C1_no_double_claim (fun _ => false) dbC1w (by decide) (by decide)⟩

/-- On a failing run the loop stops with the failing entity unfinished:
the count of fully processed A-entities is below the length of the
remaining work list. -/
theorem reconLoop_failed_bound (fail : Nat → Bool) :
    ∀ (aL snow : List AppRow) (db : Db) (ctr m p q : Nat),
      reconLoop fail aL snow db ctr m p = .failed q → p ≤ q ∧ q < p + aL.length := by
  intro aL
  induction aL with
  | nil =>
    intro snow db ctr m p q h
    exact absurd h (by simp [reconLoop])
  | cons a rest ih =>
    intro snow db ctr m p q h
    rw [reconLoop] at h
    rcases hstep : reconStep fail a snow db ctr with _ | out
    · rw [hstep] at h
      obtain ⟨rfl⟩ : p = q := by simpa using h
      simp
    · rw [hstep] at h
      obtain ⟨h1, h2⟩ := ih out.2.1 out.1 out.2.2.1 (m + out.2.2.2) (p + 1) q h
      refine ⟨by omega, ?_⟩
      simp only [List.length_cons]
      omega

/-- With an oracle that never raises, a loop-body iteration cannot abort. -/
theorem reconStep_no_fail (fail : Nat → Bool) (hf : ∀ n, fail n = false)
    (a : AppRow) (snow : List AppRow) (db : Db) (ctr : Nat) :
    reconStep fail a snow db ctr ≠ none := by
  unfold reconStep
  rcases hcl : classify_score (bestCandidate (a.appd_application_name.getD "") snow).1 with _ | _ | _ <;>
    simp only [hcl]
  · rcases hbm : (bestCandidate (a.appd_application_name.getD "") snow).2 with _ | s <;>
      simp only [hbm]
    · simp
    · rcases hcf : conflictCheck db.applications_dim s.sn_sys_id a.app_id with _ | e <;>
        simp only [hcf]
      · rw [if_neg (by simp [hf])]
        simp
      · simp
  · rcases hbm : (bestCandidate (a.appd_application_name.getD "") snow).2 with _ | s <;>
      simp only [hbm] <;> simp
  · simp

/-- With an oracle that never raises, the loop always reaches its end. -/
theorem reconLoop_no_fail_ok (fail : Nat → Bool) (hf : ∀ n, fail n = false) :
    ∀ (aL snow : List AppRow) (db : Db) (ctr m p : Nat),
      ∃ db1 m1, reconLoop fail aL snow db ctr m p = .ok db1 m1 := by
  intro aL
  induction aL with
  | nil => intro snow db ctr m p; exact ⟨db, m, by simp [reconLoop]⟩
  | cons a rest ih =>
    intro snow db ctr m p
    rw [reconLoop]
    rcases hstep : reconStep fail a snow db ctr with _ | out
    · exact absurd hstep (reconStep_no_fail fail hf a snow db ctr)
    · exact ih out.2.1 out.1 out.2.2.1 (m + out.2.2.2) (p + 1)

/-- Two AppD entities, each with a clean auto-match candidate; used to
exercise a mid-pass dependent-ledger failure. -/
def dbC2x : Db :=
  { applications_dim :=
      [{ app_id := 1, appd_application_id := some 11, appd_application_name := some "aa",
         sn_sys_id := none, sn_service_name := none, owner_id := none, sector_id := none,
         architecture_id := none, h_code := none, support_group := none },
       { app_id := 2, appd_application_id := some 12, appd_application_name := some "bb",
         sn_sys_id := none, sn_service_name := none, owner_id := none, sector_id := none,
         architecture_id := none, h_code := none, support_group := none },
       { app_id := 3, appd_application_id := none, appd_application_name := none,
         sn_sys_id := none, sn_service_name := some "aa", owner_id := some 5,
         sector_id := some 1, architecture_id := none, h_code := some "H3",
         support_group := none },
       { app_id := 4, appd_application_id := none, appd_application_name := none,
         sn_sys_id := none, sn_service_name := some "bb", owner_id := some 6,
         sector_id := some 2, architecture_id := none, h_code := some "H4",
         support_group := none }]
    license_usage_fact := [3, 4]
    license_cost_fact := [3]
    chargeback_fact := [4]
    forecast_fact := []
    reconciliation_log := [] }

/-- Failure oracle: the third dependent-ledger UPDATE of the pass (the
chargeback_fact re-homing inside the first entity's merge) raises. -/
def failC2 : Nat → Bool := fun n => decide (n = 2)

/-- Counterexample to claim C2.  On `dbC2x` a full run merges both
entities; with a dependent-ledger failure inside the first entity's merge,
the pass processes zero further entities (the second A-entity, which would
have merged, is never reached) and nothing at all persists — the
orchestrator does not continue with the remaining A-entities of the pass. -/
theorem C2_counterexample :
    (reconcile_applications (fun _ => false) dbC2x).matches_made = some 2 ∧
    (reconcile_applications failC2 dbC2x).processed = 0 ∧
    (reconcile_applications failC2 dbC2x).matches_made = none ∧
    (reconcile_applications failC2 dbC2x).persisted = dbC2x :=
  of_decide_eq_true (by with_unfolding_all rfl)

/-- Claim C2 as amended.  A dependent-ledger failure during any merge rolls
back the single pass-wide transaction — the persisted state is exactly the
input state, no commit is issued — and the pass aborts: the count of fully
processed A-entities stays strictly below the A-entity work list, i.e. the
remaining entities of the pass are not processed. -/
theorem C2_merge_failure_aborts_pass (fail : Nat → Bool) (db : Db)
    (h : (reconcile_applications fail db).matches_made = none) :
    (reconcile_applications fail db).persisted = db ∧
    (reconcile_applications fail db).commits = 0 ∧
    (reconcile_applications fail db).processed < (unmatchedA db).length := by
  unfold reconcile_applications at h ⊢
  cases hres : reconLoop fail (unmatchedA db) (unmatchedB db) db 0 0 0 with
  | ok db1 m1 => rw [hres] at h; exact absurd h (by simp)
  | failed p =>
    have hb := reconLoop_failed_bound fail (unmatchedA db) (unmatchedB db) db 0 0 0 p hres
    refine ⟨rfl, rfl, ?_⟩
    show p < (unmatchedA db).length
    omega

theorem C2_merge_failure_aborts_pass_witness :
    (reconcile_applications failC2 dbC2x).matches_made = none ∧
    ((reconcile_applications failC2 dbC2x).persisted = dbC2x ∧
     (reconcile_applications failC2 dbC2x).commits = 0 ∧
     (reconcile_applications failC2 dbC2x).processed < (unmatchedA dbC2x).length) :=
  ⟨of_decide_eq_true (by with_unfolding_all rfl),
   C2_merge_failure_aborts_pass failC2 dbC2x (of_decide_eq_true (by with_unfolding_all rfl))⟩

/-- Claim C10.  `reconcile_applications` commits exactly once, after the
loop over all A-entities completes: a run with no statement failure issues
one commit; a run in which any statement failed issues none, and its
persisted state is exactly the input state (all entity updates, donor
deletions, re-homings and log inserts of the pass are discarded together);
in no run is more than one commit issued. -/
theorem C10_single_commit_after_loop (fail : Nat → Bool) (db : Db) :
    ((∀ n, fail n = false) → (reconcile_applications fail db).commits = 1) ∧
    ((reconcile_applications fail db).matches_made = none →
      (reconcile_applications fail db).persisted = db ∧
      (reconcile_applications fail db).commits = 0) ∧
    (reconcile_applications fail db).commits ≤ 1 := by
  unfold reconcile_applications
  cases hres : reconLoop fail (unmatchedA db) (unmatchedB db) db 0 0 0 with
  | ok db1 m1 =>
    exact ⟨fun _ => rfl, fun h => absurd h (by simp), by simp⟩
  | failed p =>
    refine ⟨fun hf => ?_, fun _ => ⟨rfl, rfl⟩, by simp⟩
    obtain ⟨db2, m2, hok⟩ :=
      reconLoop_no_fail_ok fail hf (unmatchedA db) (unmatchedB db) db 0 0 0
    rw [hres] at hok
    exact absurd hok (by simp)

theorem C10_single_commit_after_loop_witness :
    (reconcile_applications (fun _ => false) dbC2x).commits = 1 ∧
    ((reconcile_applications failC2 dbC2x).persisted = dbC2x ∧
     (reconcile_applications failC2 dbC2x).commits = 0) :=
  ⟨(C10_single_commit_after_loop (fun _ => false) dbC2x).1 (fun _ => rfl),
   (C10_single_commit_after_loop failC2 dbC2x).2.1
     (of_decide_eq_true (by with_unfolding_all rfl))⟩

/-! ## C3: which row survives a merge -/

def rowC3a : AppRow :=
  { app_id := 1, appd_application_id := some 10, appd_application_name := some "ab",
    sn_sys_id := none, sn_service_name := none, owner_id := none, sector_id := none,
    architecture_id := none, h_code := none, support_group := none }

def rowC3b : AppRow :=
  { app_id := 2, appd_application_id := none, appd_application_name := none,
    sn_sys_id := none, sn_service_name := some "ab", owner_id := some 7,
    sector_id := some 3, architecture_id := none, h_code := some "H1",
    support_group := none }

def dbC3x : Db :=
  { applications_dim := [rowC3a, rowC3b]
    license_usage_fact := [2]
    license_cost_fact := []
    chargeback_fact := []
    forecast_fact := []
    reconciliation_log := [] }

/-- Counterexample to claim C3.  On `dbC3x` one auto-match merge succeeds,
and the surviving row is the AppD-originated record `app_id = 1` — it keeps
its A-side identity (`appd_application_id = 10`) and receives the B-side
fields — while the ServiceNow-only record `app_id = 2` is the row deleted.
The claim asserts the opposite roles. -/
theorem C3_counterexample :
    (reconcile_applications (fun _ => false) dbC3x).matches_made = some 1 ∧
    (reconcile_applications (fun _ => false) dbC3x).persisted.applications_dim.map
        (fun r => r.app_id) = [1] ∧
    (reconcile_applications (fun _ => false) dbC3x).persisted.applications_dim.map
        (fun r => r.appd_application_id) = [some 10] ∧
    (reconcile_applications (fun _ => false) dbC3x).persisted.applications_dim.map
        (fun r => r.sn_service_name) = [some "ab"] :=
  of_decide_eq_true (by with_unfolding_all rfl)

/-- Claim C3 as amended.  In every successful auto-match merge the
surviving Entity row is the AppD-originated (A-side) record: the row with
the processed entity's `app_id` stays in the catalog, keeps its A-side
identity fields, and is overwritten with the candidate's B-side
(ServiceNow) fields; every row carrying the B-only candidate's `app_id` is
deleted. -/
theorem C3_survivor_is_A_record (apps : List AppRow) (appd_id : Nat) (s r : AppRow)
    (hr : r ∈ apps) (hid : r.app_id = appd_id) (hne : appd_id ≠ s.app_id) :
    snFields r s ∈ mergeEffect apps appd_id s ∧
    (snFields r s).app_id = r.app_id ∧
    (snFields r s).appd_application_id = r.appd_application_id ∧
    (snFields r s).appd_application_name = r.appd_application_name ∧
    (snFields r s).sn_sys_id = s.sn_sys_id ∧
    (snFields r s).sn_service_name = s.sn_service_name ∧
    ∀ q ∈ mergeEffect apps appd_id s, q.app_id ≠ s.app_id := by
  refine ⟨?_, rfl, rfl, rfl, rfl, rfl, ?_⟩
  · unfold mergeEffect applyMergeUpdate
    rw [List.mem_filter]
    constructor
    · rw [List.mem_map]
      exact ⟨r, hr, by rw [if_pos hid]⟩
    · have : (snFields r s).app_id = appd_id := by rw [snFields_app_id, hid]
      simp [this, hne]
  · intro q hq
    unfold mergeEffect at hq
    rw [List.mem_filter] at hq
    simpa using hq.2

theorem C3_survivor_is_A_record_witness :
    rowC3a ∈ dbC3x.applications_dim ∧ rowC3a.app_id = 1 ∧ (1 : Nat) ≠ rowC3b.app_id ∧
    (snFields rowC3a rowC3b ∈ mergeEffect dbC3x.applications_dim 1 rowC3b ∧
     (snFields rowC3a rowC3b).app_id = rowC3a.app_id ∧
     (snFields rowC3a rowC3b).appd_application_id = rowC3a.appd_application_id ∧
     (snFields rowC3a rowC3b).appd_application_name = rowC3a.appd_application_name ∧
     (snFields rowC3a rowC3b).sn_sys_id = rowC3b.sn_sys_id ∧
     (snFields rowC3a rowC3b).sn_service_name = rowC3b.sn_service_name ∧
     ∀ q ∈ mergeEffect dbC3x.applications_dim 1 rowC3b, q.app_id ≠ rowC3b.app_id) :=
  ⟨by decide, by decide, by decide,
   C3_survivor_is_A_record dbC3x.applications_dim 1 rowC3b rowC3a
     (by decide) (by decide) (by decide)⟩

/-! ## C5: similarity symmetry -/

/-- Counterexample to claim C5.  The greedy block matching of difflib is
order-dependent: `fuzzy_match_score "aaba" "baaa" = 75` but
`fuzzy_match_score "baaa" "aaba" = 50`. -/
theorem C5_counterexample :
    fuzzy_match_score "aaba" "baaa" = 75 ∧ fuzzy_match_score "baaa" "aaba" = 50 ∧
    fuzzy_match_score "aaba" "baaa" ≠ fuzzy_match_score "baaa" "aaba" :=
  of_decide_eq_true (by with_unfolding_all rfl)

/-- Claim C5 as amended.  The score is symmetric whenever either string is
empty (both orders yield 0) or the two strings agree after case folding;
for general pairs the two orders may differ. -/
theorem C5_symmetry_restricted (s1 s2 : String)
    (h : pyLower s1.data = pyLower s2.data ∨ s1.data = [] ∨ s2.data = []) :
    fuzzy_match_score s1 s2 = fuzzy_match_score s2 s1 := by
  rcases h with h | h | h
  · unfold fuzzy_match_score
    by_cases h1 : s1.data = []
    · have h2 : s2.data = [] := by
        rw [h1] at h
        simpa [pyLower] using h.symm
      rw [if_pos (Or.inl h1), if_pos (Or.inl h2)]
    · have h2 : s2.data ≠ [] := by
        intro h2
        rw [h2] at h
        exact h1 (by simpa [pyLower] using h)
      rw [if_neg (by simp [h1, h2]), if_neg (by simp [h1, h2]), h]
  · unfold fuzzy_match_score
    rw [if_pos (Or.inl h), if_pos (Or.inr h)]
  · unfold fuzzy_match_score
    rw [if_pos (Or.inr h), if_pos (Or.inl h)]

theorem C5_symmetry_restricted_witness :
    pyLower "Ab".data = pyLower "aB".data ∧
    fuzzy_match_score "Ab" "aB" = fuzzy_match_score "aB" "Ab" :=
  ⟨by decide, C5_symmetry_restricted "Ab" "aB" (Or.inl (by decide))⟩

/-! ## C6: threshold partition -/

/-- Claim C6.  The classification of a best score partitions the score
range with boundaries inclusive on the low end: auto_match iff 80 ≤ s,
needs_review iff 50 ≤ s < 80, no_match iff s < 50; the three cases are
mutually exclusive and exhaustive since `classify_score` is a function into
the three-value outcome type. -/
theorem C6_threshold_partition (s : ℚ) :
    (classify_score s = .auto_match ↔ 80 ≤ s) ∧
    (classify_score s = .needs_review ↔ 50 ≤ s ∧ s < 80) ∧
    (classify_score s = .no_match ↔ s < 50) := by
  unfold classify_score
  by_cases h1 : 80 ≤ s
  · rw [if_pos h1]
    refine ⟨by simp [h1], ?_, ?_⟩
    · constructor
      · intro h; exact absurd h (by simp)
      · rintro ⟨h50, h80⟩; linarith
    · constructor
      · intro h; exact absurd h (by simp)
      · intro h; linarith
  · rw [if_neg h1]
    by_cases h2 : 50 ≤ s
    · rw [if_pos h2]
      refine ⟨⟨fun h => absurd h (by simp), fun h => absurd h h1⟩,
              ⟨fun _ => ⟨h2, not_le.mp h1⟩, fun _ => rfl⟩,
              ⟨fun h => absurd h (by simp), fun h => absurd h2 (not_le.mpr h)⟩⟩
    · rw [if_neg h2]
      exact ⟨⟨fun h => absurd h (by simp), fun h => absurd h h1⟩,
             ⟨fun h => absurd h (by simp), fun hh => absurd hh.1 h2⟩,
             ⟨fun _ => not_le.mp h2, fun _ => rfl⟩⟩

/-! ## C7: what the reported match rate measures -/

def dbC7x : Db :=
  { applications_dim :=
      [{ app_id := 1, appd_application_id := some 10, appd_application_name := some "aa",
         sn_sys_id := some "sx", sn_service_name := some "aa", owner_id := none,
         sector_id := none, architecture_id := none, h_code := none, support_group := none },
       { app_id := 2, appd_application_id := some 20, appd_application_name := some "bb",
         sn_sys_id := none, sn_service_name := none, owner_id := none, sector_id := none,
         architecture_id := none, h_code := none, support_group := none }]
    license_usage_fact := []
    license_cost_fact := []
    chargeback_fact := []
    forecast_fact := []
    reconciliation_log := [] }

/-- Counterexample to claim C7.  On `dbC7x` the pass processes one
A-entity and merges none, so merged / total-A-entities × 100 = 0; but the
reported overall match rate is 50 (one pre-existing matched row out of two
table rows). -/
theorem C7_counterexample :
    (reconcile_applications (fun _ => false) dbC7x).matches_made = some 0 ∧
    (reconcile_applications (fun _ => false) dbC7x).processed = 1 ∧
    reported_match_rate
        ((reconcile_applications (fun _ => false) dbC7x).persisted.applications_dim) = 50 ∧
    (50 : ℚ) ≠ 100 * 0 / 1 :=
  of_decide_eq_true (by with_unfolding_all rfl)

/-- Spec-side reformulation for C7: the number of table rows carrying both
source ids ("matched" Entities). -/
def matchedRowCount (apps : List AppRow) : Nat :=
  (apps.filter
    (fun r => decide (r.appd_application_id ≠ none) && decide (r.sn_sys_id ≠ none))).length

/-- Claim C7 as amended.  The reported overall match rate equals the share
of rows with both ids non-null among all rows of the post-pass Entity
table, times 100 (0 for an empty table) — not merged / A-entities
processed. -/
theorem C7_match_rate_is_table_share (fail : Nat → Bool) (db : Db) :
    reported_match_rate ((reconcile_applications fail db).persisted.applications_dim) =
      (if ((reconcile_applications fail db).persisted.applications_dim).length = 0 then 0
       else (matchedRowCount ((reconcile_applications fail db).persisted.applications_dim) : ℚ)
              * 100 /
            (((reconcile_applications fail db).persisted.applications_dim).length : ℚ)) := by
  generalize (reconcile_applications fail db).persisted.applications_dim = apps
  unfold reported_match_rate report_stats matchedRowCount
  rcases Nat.eq_zero_or_pos apps.length with h | h
  · simp [h]
  · rw [if_pos h, if_neg (by omega), List.countP_eq_length_filter, div_mul_eq_mul_div]

/-! ## C9: records written per matcher invocation -/

def rowC9 : AppRow :=
  { app_id := 1, appd_application_id := some 5, appd_application_name := some "aa",
    sn_sys_id := none, sn_service_name := none, owner_id := none, sector_id := none,
    architecture_id := none, h_code := none, support_group := none }

def dbC9x : Db :=
  { applications_dim := [rowC9]
    license_usage_fact := []
    license_cost_fact := []
    chargeback_fact := []
    forecast_fact := []
    reconciliation_log := [] }

/-- Counterexample to claim C9.  On `dbC9x` one A-entity is processed with
no candidates (outcome no_match), yet zero Match Decision Records are
written — the engine has no INSERT on the no_match path. -/
theorem C9_counterexample :
    (reconcile_applications (fun _ => false) dbC9x).processed = 1 ∧
    ((reconcile_applications (fun _ => false) dbC9x).persisted.reconciliation_log).length
      = 0 :=
  of_decide_eq_true (by with_unfolding_all rfl)

/-- Three further concrete rows for C9: an AppD entity `rowC9A`, a
ServiceNow candidate `rowC9B` whose non-null `sn_sys_id` makes the conflict
guard fire (the guard's query matches the candidate row itself), and a
ServiceNow candidate `rowC9C` with NULL `sn_sys_id` that merges cleanly. -/
def rowC9A : AppRow :=
  { app_id := 1, appd_application_id := some 7, appd_application_name := some "ab",
    sn_sys_id := none, sn_service_name := none, owner_id := none, sector_id := none,
    architecture_id := none, h_code := none, support_group := none }

def rowC9B : AppRow :=
  { app_id := 2, appd_application_id := none, appd_application_name := none,
    sn_sys_id := some "s1", sn_service_name := some "ab", owner_id := some 4,
    sector_id := some 1, architecture_id := none, h_code := none, support_group := none }

def rowC9C : AppRow :=
  { app_id := 3, appd_application_id := none, appd_application_name := none,
    sn_sys_id := none, sn_service_name := some "ab", owner_id := some 6,
    sector_id := some 2, architecture_id := none, h_code := none, support_group := none }

def dbC9y : Db :=
  { applications_dim := [rowC9A, rowC9B, rowC9C]
    license_usage_fact := [2, 3]
    license_cost_fact := []
    chargeback_fact := []
    forecast_fact := []
    reconciliation_log := [] }

/-- Claim C9 as amended.  Per matcher invocation: a no_match outcome
(score below 50, including the no-candidates case where the best score is
0) writes no Match Decision Record and leaves the store untouched, and
iteration simply continues with the next A-entity; each of the other three
outcomes — needs_review, conflict, and auto_matched (on a merge none of
whose ledger statements raises) — appends exactly one record. -/
theorem C9_records_per_outcome (fail : Nat → Bool) (a : AppRow)
    (rest snow : List AppRow) (db : Db) (ctr m p : Nat) :
    ((bestCandidate (a.appd_application_name.getD "") snow).1 < 50 →
      reconStep fail a snow db ctr = some (db, snow, ctr, 0) ∧
      reconLoop fail (a :: rest) snow db ctr m p = reconLoop fail rest snow db ctr m (p + 1)) ∧
    (∀ s, 50 ≤ (bestCandidate (a.appd_application_name.getD "") snow).1 →
      (bestCandidate (a.appd_application_name.getD "") snow).1 < 80 →
      (bestCandidate (a.appd_application_name.getD "") snow).2 = some s →
      reconStep fail a snow db ctr =
        some (logReview db (a.appd_application_name.getD "") s
                (bestCandidate (a.appd_application_name.getD "") snow).1, snow, ctr, 0) ∧
      ((logReview db (a.appd_application_name.getD "") s
          (bestCandidate (a.appd_application_name.getD "") snow).1).reconciliation_log).length
        = db.reconciliation_log.length + 1) ∧
    (∀ s e, 80 ≤ (bestCandidate (a.appd_application_name.getD "") snow).1 →
      (bestCandidate (a.appd_application_name.getD "") snow).2 = some s →
      conflictCheck db.applications_dim s.sn_sys_id a.app_id = some e →
      reconStep fail a snow db ctr =
        some (logConflict db (a.appd_application_name.getD "") s
                (bestCandidate (a.appd_application_name.getD "") snow).1 e, snow, ctr, 0) ∧
      ((logConflict db (a.appd_application_name.getD "") s
          (bestCandidate (a.appd_application_name.getD "") snow).1 e).reconciliation_log).length
        = db.reconciliation_log.length + 1) ∧
    (∀ s, 80 ≤ (bestCandidate (a.appd_application_name.getD "") snow).1 →
      (bestCandidate (a.appd_application_name.getD "") snow).2 = some s →
      conflictCheck db.applications_dim s.sn_sys_id a.app_id = none →
      fail ctr = false → fail (ctr + 1) = false → fail (ctr + 2) = false →
      fail (ctr + 3) = false →
      reconStep fail a snow db ctr =
        some (mergeDb db a.app_id (a.appd_application_name.getD "") s
                (bestCandidate (a.appd_application_name.getD "") snow).1,
              snow.filter (fun r => decide (r.app_id ≠ s.app_id)), ctr + 4, 1) ∧
      ((mergeDb db a.app_id (a.appd_application_name.getD "") s
          (bestCandidate (a.appd_application_name.getD "") snow).1).reconciliation_log).length
        = db.reconciliation_log.length + 1) := by
  refine ⟨?_, ?_, ?_, ?_⟩
  · intro hlt
    have hcl : classify_score (bestCandidate (a.appd_application_name.getD "") snow).1
        = .no_match := by
      unfold classify_score
      rw [if_neg (by linarith), if_neg (by linarith)]
    have hstep : reconStep fail a snow db ctr = some (db, snow, ctr, 0) := by
      unfold reconStep
      simp only [hcl]
    refine ⟨hstep, ?_⟩
    rw [reconLoop, hstep]
    simp
  · intro s h50 h80 hbm
    have hcl : classify_score (bestCandidate (a.appd_application_name.getD "") snow).1
        = .needs_review := by
      unfold classify_score
      rw [if_neg (by linarith), if_pos h50]
    constructor
    · unfold reconStep
      simp only [hcl, hbm]
    · simp [logReview]
  · intro s e h80 hbm hcf
    have hcl : classify_score (bestCandidate (a.appd_application_name.getD "") snow).1
        = .auto_match := by
      unfold classify_score
      rw [if_pos h80]
    constructor
    · unfold reconStep
      simp only [hcl, hbm, hcf]
    · simp [logConflict]
  · intro s h80 hbm hcf hf0 hf1 hf2 hf3
    have hcl : classify_score (bestCandidate (a.appd_application_name.getD "") snow).1
        = .auto_match := by
      unfold classify_score
      rw [if_pos h80]
    constructor
    · unfold reconStep
      simp only [hcl, hbm, hcf]
      rw [if_neg (by simp [hf0, hf1, hf2, hf3])]
    · simp [mergeDb]

/-- Witness exercising all three record-writing hypotheses of the amended
C9 on concrete data: no_match on `dbC9x`, conflict on `dbC9y` with
candidate `rowC9B`, auto_matched on `dbC9y` with candidate `rowC9C`. -/
theorem C9_records_per_outcome_witness :
    ((bestCandidate (rowC9.appd_application_name.getD "") []).1 < 50 ∧
     (reconStep (fun _ => false) rowC9 [] dbC9x 0 = some (dbC9x, [], 0, 0) ∧
      reconLoop (fun _ => false) [rowC9] [] dbC9x 0 0 0 =
        reconLoop (fun _ => false) [] [] dbC9x 0 0 (0 + 1))) ∧
    (80 ≤ (bestCandidate (rowC9A.appd_application_name.getD "") [rowC9B]).1 ∧
     (bestCandidate (rowC9A.appd_application_name.getD "") [rowC9B]).2 = some rowC9B ∧
     conflictCheck dbC9y.applications_dim rowC9B.sn_sys_id rowC9A.app_id = some rowC9B ∧
     (reconStep (fun _ => false) rowC9A [rowC9B] dbC9y 0 =
        some (logConflict dbC9y (rowC9A.appd_application_name.getD "") rowC9B
                (bestCandidate (rowC9A.appd_application_name.getD "") [rowC9B]).1 rowC9B,
              [rowC9B], 0, 0) ∧
      ((logConflict dbC9y (rowC9A.appd_application_name.getD "") rowC9B
          (bestCandidate (rowC9A.appd_application_name.getD "") [rowC9B]).1
          rowC9B).reconciliation_log).length
        = dbC9y.reconciliation_log.length + 1)) ∧
    (80 ≤ (bestCandidate (rowC9A.appd_application_name.getD "") [rowC9C]).1 ∧
     (bestCandidate (rowC9A.appd_application_name.getD "") [rowC9C]).2 = some rowC9C ∧
     conflictCheck dbC9y.applications_dim rowC9C.sn_sys_id rowC9A.app_id = none ∧
     (reconStep (fun _ => false) rowC9A [rowC9C] dbC9y 0 =
        some (mergeDb dbC9y rowC9A.app_id (rowC9A.appd_application_name.getD "") rowC9C
                (bestCandidate (rowC9A.appd_application_name.getD "") [rowC9C]).1,
              [rowC9C].filter (fun r => decide (r.app_id ≠ rowC9C.app_id)), 0 + 4, 1) ∧
      ((mergeDb dbC9y rowC9A.app_id (rowC9A.appd_application_name.getD "") rowC9C
          (bestCandidate (rowC9A.appd_application_name.getD "") [rowC9C]).1).reconciliation_log).length
        = dbC9y.reconciliation_log.length + 1)) := by
  have h1 : (bestCandidate (rowC9.appd_application_name.getD "") []).1 < 50 :=
    of_decide_eq_true (by with_unfolding_all rfl)
  have h80b : 80 ≤ (bestCandidate (rowC9A.appd_application_name.getD "") [rowC9B]).1 :=
    of_decide_eq_true (by with_unfolding_all rfl)
  have hbmb : (bestCandidate (rowC9A.appd_application_name.getD "") [rowC9B]).2
      = some rowC9B :=
    of_decide_eq_true (by with_unfolding_all rfl)
  have hcfb : conflictCheck dbC9y.applications_dim rowC9B.sn_sys_id rowC9A.app_id
      = some rowC9B := by decide
  have h80c : 80 ≤ (bestCandidate (rowC9A.appd_application_name.getD "") [rowC9C]).1 :=
    of_decide_eq_true (by with_unfolding_all rfl)
  have hbmc : (bestCandidate (rowC9A.appd_application_name.getD "") [rowC9C]).2
      = some rowC9C :=
    of_decide_eq_true (by with_unfolding_all rfl)
  have hcfc : conflictCheck dbC9y.applications_dim rowC9C.sn_sys_id rowC9A.app_id
      = none := by decide
  exact ⟨⟨h1, (C9_records_per_outcome (fun _ => false) rowC9 [] [] dbC9x 0 0 0).1 h1⟩,
    ⟨h80b, hbmb, hcfb,
     (C9_records_per_outcome (fun _ => false) rowC9A [] [rowC9B] dbC9y 0 0 0).2.2.1
       rowC9B rowC9B h80b hbmb hcfb⟩,
    ⟨h80c, hbmc, hcfc,
     (C9_records_per_outcome (fun _ => false) rowC9A [] [rowC9C] dbC9y 0 0 0).2.2.2
       rowC9C h80c hbmc hcfc rfl rfl rfl rfl⟩⟩

/-! ## Allocation engine (allocation_engine.py)

`chargeback_fact` rows carry the columns of the engine's INSERT.  The three
strategies receive the results of their opening aggregate queries — the
shared entity's total period cost (`SELECT SUM(usd_cost) … or 0`) and the
per-sector usage breakdown (`SELECT sector_id, SUM(units_consumed) …
GROUP BY`) / distinct-sector list — as inputs: those aggregates are read
from the store, the strategies' own logic starts after the fetch. -/

structure CbRow where
  month_start : Nat
  app_id : Nat
  sector_id : Nat
  owner_id : Nat
  usd_amount : ℚ
  chargeback_cycle : String
deriving DecidableEq

/-- Python `round(x, 2)`: nearest hundredth.  (Mathlib `round` resolves
exact half-cent ties upward where CPython rounds half-to-even; the tie rule
is immaterial to every property stated here, which only uses
`|round2 x - x| ≤ 1/200`.) -/
def round2 (x : ℚ) : ℚ := ((round (100 * x) : ℤ) : ℚ) / 100

def cbKeyMatch (m a s2 : Nat) (r : CbRow) : Bool :=
  decide (r.month_start = m) && decide (r.app_id = a) && decide (r.sector_id = s2)

/-- Embeds `INSERT INTO chargeback_fact … VALUES (…, 1, amount, cycle)
ON CONFLICT (month_start, app_id, sector_id) DO UPDATE SET
usd_amount = chargeback_fact.usd_amount + EXCLUDED.usd_amount`.
On conflict only `usd_amount` is touched; `chargeback_cycle` (the strategy
marker) and `owner_id` are written only by the insert arm. -/
def chargeback_upsert (tbl : List CbRow) (m a s2 : Nat) (amount : ℚ) (cycle : String) :
    List CbRow :=
  if tbl.any (cbKeyMatch m a s2) then
    tbl.map (fun r =>
      if cbKeyMatch m a s2 r then { r with usd_amount := r.usd_amount + amount } else r)
  else
    tbl ++ [{ month_start := m, app_id := a, sector_id := s2, owner_id := 1,
              usd_amount := amount, chargeback_cycle := cycle }]

/-- Embeds `proportional_allocation(conn, shared_app_id, month_start)` after its
two fetches: early-return 0 rows when the total cost is 0 or the total
usage is 0; otherwise one upsert per usage row with
`round(total_cost * usage / total_usage, 2)`.  Returns the table and the
`allocations` counter. -/
def proportional_allocation (tbl : List CbRow) (shared_app_id month_start : Nat)
    (total_cost : ℚ) (sector_usage : List (Nat × ℚ)) : List CbRow × Nat :=
  if total_cost = 0 then (tbl, 0)
  else
    let total_usage := (sector_usage.map (fun su => su.2)).sum
    if total_usage = 0 then (tbl, 0)
    else
      sector_usage.foldl
        (fun acc su =>
          let allocated_amount := total_cost * (su.2 / total_usage)
          (chargeback_upsert acc.1 month_start shared_app_id su.1
             (round2 allocated_amount) "allocated_shared_service", acc.2 + 1))
        (tbl, 0)

/-- Embeds `equal_split_allocation`: early-return on zero cost or no sectors;
otherwise one upsert per distinct sector with
`round(total_cost / len(active_sectors), 2)`. -/
def equal_split_allocation (tbl : List CbRow) (shared_app_id month_start : Nat)
    (total_cost : ℚ) (active_sectors : List Nat) : List CbRow × Nat :=
  if total_cost = 0 then (tbl, 0)
  else if active_sectors.length = 0 then (tbl, 0)
  else
    let per_sector_cost := total_cost / (active_sectors.length : ℚ)
    (active_sectors.foldl
       (fun t sid => chargeback_upsert t month_start shared_app_id sid
          (round2 per_sector_cost) "allocated_equal_split") tbl,
     active_sectors.length)

/-- Embeds `custom_formula_allocation`: 40% proportional by usage, 60% equal
split over the sectors present in the usage breakdown; each sub-component
falls back to 0 when its denominator is 0
(`… if total_usage > 0 else 0`, `… if active_sectors else 0`). -/
def custom_formula_allocation (tbl : List CbRow) (shared_app_id month_start : Nat)
    (total_cost : ℚ) (sector_usage : List (Nat × ℚ)) : List CbRow × Nat :=
  if total_cost = 0 then (tbl, 0)
  else
    let proportional_portion := total_cost * 0.4
    let total_usage := (sector_usage.map (fun su => su.2)).sum
    let equal_portion := total_cost * 0.6
    let active_sectors := sector_usage.map (fun su => su.1)
    let per_sector_equal :=
      if active_sectors.length ≠ 0 then equal_portion / (active_sectors.length : ℚ) else 0
    sector_usage.foldl
      (fun acc su =>
        let proportional_share :=
          if 0 < total_usage then proportional_portion * (su.2 / total_usage) else 0
        let total_allocation := proportional_share + per_sector_equal
        (chargeback_upsert acc.1 month_start shared_app_id su.1
           (round2 total_allocation) "allocated_custom_formula", acc.2 + 1))
      (tbl, 0)

def sumAmounts (tbl : List CbRow) : ℚ := (tbl.map (fun r => r.usd_amount)).sum

/-- Key discipline of `chargeback_fact`: the ON CONFLICT target
`(month_start, app_id, sector_id)` is a unique key. -/
abbrev uniqueKeys (tbl : List CbRow) : Prop :=
  tbl.Pairwise (fun r s =>
    (r.month_start, r.app_id, r.sector_id) ≠ (s.month_start, s.app_id, s.sector_id))

theorem cbKeyMatch_iff (m a s2 : Nat) (r : CbRow) :
    cbKeyMatch m a s2 r = true ↔ r.month_start = m ∧ r.app_id = a ∧ r.sector_id = s2 := by
  simp [cbKeyMatch, and_assoc]

theorem countP_keyMatch_le_one (tbl : List CbRow) (m a s2 : Nat) (h : uniqueKeys tbl) :
    tbl.countP (cbKeyMatch m a s2) ≤ 1 := by
  unfold uniqueKeys at h
  induction tbl with
  | nil => simp
  | cons r t ih =>
    rw [List.pairwise_cons] at h
    rw [List.countP_cons]
    by_cases hr : cbKeyMatch m a s2 r = true
    · have hz : t.countP (cbKeyMatch m a s2) = 0 := by
        rw [List.countP_eq_zero]
        intro s hs hsk
        obtain ⟨hm1, ha1, hs1⟩ := (cbKeyMatch_iff m a s2 r).mp hr
        obtain ⟨hm2, ha2, hs2⟩ := (cbKeyMatch_iff m a s2 s).mp hsk
        exact h.1 s hs (by rw [hm1, ha1, hs1, hm2, ha2, hs2])
      simp [hr, hz]
    · simp only [hr, if_false]
      simpa using ih h.2

theorem upsert_sum (tbl : List CbRow) (m a s2 : Nat) (amt : ℚ) (cyc : String)
    (h : uniqueKeys tbl) :
    sumAmounts (chargeback_upsert tbl m a s2 amt cyc) = sumAmounts tbl + amt := by
  unfold chargeback_upsert
  by_cases hany : tbl.any (cbKeyMatch m a s2) = true
  · rw [if_pos hany]
    have key : ∀ (l : List CbRow),
        ((l.map (fun r => if cbKeyMatch m a s2 r then
            { r with usd_amount := r.usd_amount + amt } else r)).map
          (fun r => r.usd_amount)).sum
        = (l.map (fun r => r.usd_amount)).sum + amt * (l.countP (cbKeyMatch m a s2)) := by
      intro l
      induction l with
      | nil => simp
      | cons r t ih =>
        simp only [List.map_cons, List.sum_cons, List.countP_cons]
        by_cases hr : cbKeyMatch m a s2 r = true
        · simp only [hr, if_true, ih]
          push_cast
          ring
        · simp only [hr, if_false, ih]
          push_cast
          ring
    have hcount : tbl.countP (cbKeyMatch m a s2) = 1 := by
      have h1 := countP_keyMatch_le_one tbl m a s2 h
      have h2 : 0 < tbl.countP (cbKeyMatch m a s2) := by
        rw [List.countP_pos_iff]
        rw [List.any_eq_true] at hany
        exact hany
      omega
    unfold sumAmounts
    rw [key, hcount]
    push_cast
    ring
  · rw [if_neg hany]
    unfold sumAmounts
    simp

theorem upsert_uniqueKeys (tbl : List CbRow) (m a s2 : Nat) (amt : ℚ) (cyc : String)
    (h : uniqueKeys tbl) : uniqueKeys (chargeback_upsert tbl m a s2 amt cyc) := by
  unfold uniqueKeys at h ⊢
  unfold chargeback_upsert
  by_cases hany : tbl.any (cbKeyMatch m a s2) = true
  · rw [if_pos hany, List.pairwise_map]
    refine h.imp ?_
    intro r s hrs
    have kr : ∀ q : CbRow, ((if cbKeyMatch m a s2 q then
        { q with usd_amount := q.usd_amount + amt } else q).month_start,
        (if cbKeyMatch m a s2 q then { q with usd_amount := q.usd_amount + amt } else q).app_id,
        (if cbKeyMatch m a s2 q then { q with usd_amount := q.usd_amount + amt } else q).sector_id)
        = (q.month_start, q.app_id, q.sector_id) := by
      intro q
      split <;> rfl
    rw [kr r, kr s]
    exact hrs
  · rw [if_neg hany, List.pairwise_append]
    refine ⟨h, by simp, ?_⟩
    intro r hr s hs
    rw [List.mem_singleton] at hs
    subst hs
    rw [List.any_eq_true] at hany
    push_neg at hany
    have hnr := hany r hr
    intro hkey
    simp only [Prod.mk.injEq] at hkey
    exact hnr ((cbKeyMatch_iff m a s2 r).mpr ⟨hkey.1, hkey.2.1, hkey.2.2⟩)

/-- Every two-decimal rounding moves a value by at most half a cent. -/
theorem round2_bound (x : ℚ) : |round2 x - x| ≤ 1 / 200 := by
  unfold round2
  have h := abs_sub_round (100 * x)
  rw [abs_sub_comm] at h
  have heq : ((round (100 * x) : ℤ) : ℚ) / 100 - x
      = (((round (100 * x) : ℤ) : ℚ) - 100 * x) / 100 := by ring
  rw [heq, abs_div]
  have h100 : |(100 : ℚ)| = 100 := by norm_num
  rw [h100]
  calc |((round (100 * x) : ℤ) : ℚ) - 100 * x| / 100
      ≤ (1 / 2) / 100 := by
        apply div_le_div_of_nonneg_right h (by norm_num) |>.trans_eq rfl
    _ = 1 / 200 := by norm_num

theorem sum_round2_bound {α : Type} (f : α → ℚ) :
    ∀ (l : List α),
      |(l.map (fun x => round2 (f x))).sum - (l.map f).sum| ≤ (l.length : ℚ) * (1 / 200) := by
  intro l
  induction l with
  | nil => simp
  | cons x t ih =>
    simp only [List.map_cons, List.sum_cons, List.length_cons]
    have heq : round2 (f x) + (t.map (fun y => round2 (f y))).sum - (f x + (t.map f).sum)
        = (round2 (f x) - f x) + ((t.map (fun y => round2 (f y))).sum - (t.map f).sum) := by
      ring
    rw [heq]
    calc |(round2 (f x) - f x) + ((t.map (fun y => round2 (f y))).sum - (t.map f).sum)|
        ≤ |round2 (f x) - f x| + |(t.map (fun y => round2 (f y))).sum - (t.map f).sum| :=
          abs_add _ _
      _ ≤ 1 / 200 + (t.length : ℚ) * (1 / 200) := by
          exact add_le_add (round2_bound (f x)) ih
      _ = ((t.length : ℚ) + 1) * (1 / 200) := by ring
      _ = (((t.length : Nat) + 1 : Nat) : ℚ) * (1 / 200) := by push_cast; ring

/-- Sum and key-discipline effect of the per-usage-row upsert fold shared
by the proportional and blended strategies. -/
theorem foldl_upsert_pair (m app : Nat) (cyc : String) (g : Nat × ℚ → ℚ) :
    ∀ (l : List (Nat × ℚ)) (tbl : List CbRow) (n : Nat), uniqueKeys tbl →
      sumAmounts (l.foldl
          (fun acc su => (chargeback_upsert acc.1 m app su.1 (g su) cyc, acc.2 + 1))
          (tbl, n)).1
        = sumAmounts tbl + (l.map g).sum ∧
      uniqueKeys (l.foldl
          (fun acc su => (chargeback_upsert acc.1 m app su.1 (g su) cyc, acc.2 + 1))
          (tbl, n)).1 ∧
      (l.foldl
          (fun acc su => (chargeback_upsert acc.1 m app su.1 (g su) cyc, acc.2 + 1))
          (tbl, n)).2 = n + l.length := by
  intro l
  induction l with
  | nil =>
    intro tbl n h
    exact ⟨by simp, h, by simp⟩
  | cons su t ih =>
    intro tbl n h
    simp only [List.foldl_cons]
    obtain ⟨h1, h2, h3⟩ :=
      ih (chargeback_upsert tbl m app su.1 (g su) cyc) (n + 1)
        (upsert_uniqueKeys tbl m app su.1 (g su) cyc h)
    refine ⟨?_, h2, ?_⟩
    · rw [h1, upsert_sum tbl m app su.1 (g su) cyc h]
      simp only [List.map_cons, List.sum_cons]
      ring
    · rw [h3, List.length_cons]
      omega

/-- Sum and key-discipline effect of the constant-amount upsert fold of the
equal-split strategy. -/
theorem foldl_upsert_const (m app : Nat) (cyc : String) (amt : ℚ) :
    ∀ (l : List Nat) (tbl : List CbRow), uniqueKeys tbl →
      sumAmounts (l.foldl (fun t sid => chargeback_upsert t m app sid amt cyc) tbl)
        = sumAmounts tbl + (l.length : ℚ) * amt ∧
      uniqueKeys (l.foldl (fun t sid => chargeback_upsert t m app sid amt cyc) tbl) := by
  intro l
  induction l with
  | nil =>
    intro tbl h
    exact ⟨by simp, h⟩
  | cons sid t ih =>
    intro tbl h
    simp only [List.foldl_cons]
    obtain ⟨h1, h2⟩ :=
      ih (chargeback_upsert tbl m app sid amt cyc) (upsert_uniqueKeys tbl m app sid amt cyc h)
    refine ⟨?_, h2⟩
    rw [h1, upsert_sum tbl m app sid amt cyc h, List.length_cons]
    push_cast
    ring

theorem sum_map_addc {α : Type} (f : α → ℚ) (c : ℚ) :
    ∀ l : List α, (l.map (fun x => f x + c)).sum = (l.map f).sum + (l.length : ℚ) * c := by
  intro l
  induction l with
  | nil => simp
  | cons x t ih =>
    simp only [List.map_cons, List.sum_cons, List.length_cons, ih]
    push_cast
    ring

theorem proportional_conserves (tbl : List CbRow) (shared_app_id month_start : Nat)
    (total_cost : ℚ) (sector_usage : List (Nat × ℚ)) (h : uniqueKeys tbl)
    (htc : total_cost ≠ 0) (hU : (sector_usage.map (fun su => su.2)).sum ≠ 0) :
    |sumAmounts (proportional_allocation tbl shared_app_id month_start
        total_cost sector_usage).1 - sumAmounts tbl - total_cost|
      ≤ (sector_usage.length : ℚ) * (1 / 200) := by
  unfold proportional_allocation
  simp only [htc, hU, if_false]
  obtain ⟨h1, h2, h3⟩ := foldl_upsert_pair month_start shared_app_id
    "allocated_shared_service"
    (fun x => round2 (total_cost * (x.2 / (sector_usage.map (fun su => su.2)).sum)))
    sector_usage tbl 0 h
  rw [h1]
  have hshare : (sector_usage.map
      (fun x => total_cost * (x.2 / (sector_usage.map (fun su => su.2)).sum))).sum
      = total_cost := by
    have hfe : (fun x : Nat × ℚ =>
        total_cost * (x.2 / (sector_usage.map (fun su => su.2)).sum))
        = fun x => (total_cost / (sector_usage.map (fun su => su.2)).sum) * x.2 :=
      funext fun x => by ring
    rw [hfe, List.sum_map_mul_left]
    exact div_mul_cancel₀ total_cost hU
  have hb := sum_round2_bound
    (fun x => total_cost * (x.2 / (sector_usage.map (fun su => su.2)).sum)) sector_usage
  simp only [] at hb
  have heq : sumAmounts tbl + (sector_usage.map
        (fun x => round2 (total_cost * (x.2 / (sector_usage.map (fun su => su.2)).sum)))).sum
        - sumAmounts tbl - total_cost
      = (sector_usage.map
          (fun x => round2 (total_cost * (x.2 / (sector_usage.map (fun su => su.2)).sum)))).sum
        - (sector_usage.map
            (fun x => total_cost * (x.2 / (sector_usage.map (fun su => su.2)).sum))).sum := by
    rw [hshare]
    ring
  rw [heq]
  exact hb

theorem equal_split_conserves (tbl : List CbRow) (shared_app_id month_start : Nat)
    (total_cost : ℚ) (active_sectors : List Nat) (h : uniqueKeys tbl)
    (htc : total_cost ≠ 0) (hne : active_sectors ≠ []) :
    |sumAmounts (equal_split_allocation tbl shared_app_id month_start
        total_cost active_sectors).1 - sumAmounts tbl - total_cost|
      ≤ (active_sectors.length : ℚ) * (1 / 200) := by
  have hlen : active_sectors.length ≠ 0 := fun he => hne (List.length_eq_zero.mp he)
  unfold equal_split_allocation
  simp only [htc, hlen, if_false]
  obtain ⟨h1, h2⟩ := foldl_upsert_const month_start shared_app_id "allocated_equal_split"
    (round2 (total_cost / (active_sectors.length : ℚ))) active_sectors tbl h
  rw [h1]
  have hn : (active_sectors.length : ℚ) ≠ 0 := Nat.cast_ne_zero.mpr hlen
  have hmul : (active_sectors.length : ℚ) * (total_cost / (active_sectors.length : ℚ))
      = total_cost := by
    rw [mul_comm]
    exact div_mul_cancel₀ total_cost hn
  have heq : sumAmounts tbl + (active_sectors.length : ℚ)
        * round2 (total_cost / (active_sectors.length : ℚ)) - sumAmounts tbl - total_cost
      = (active_sectors.length : ℚ) * (round2 (total_cost / (active_sectors.length : ℚ))
          - total_cost / (active_sectors.length : ℚ)) := by
    rw [mul_sub, hmul]
    ring
  rw [heq, abs_mul, abs_of_nonneg (by positivity : (0:ℚ) ≤ (active_sectors.length : ℚ))]
  exact mul_le_mul_of_nonneg_left
    (round2_bound (total_cost / (active_sectors.length : ℚ))) (by positivity)

theorem custom_formula_conserves (tbl : List CbRow) (shared_app_id month_start : Nat)
    (total_cost : ℚ) (sector_usage : List (Nat × ℚ)) (h : uniqueKeys tbl)
    (htc : total_cost ≠ 0) (hU : 0 < (sector_usage.map (fun su => su.2)).sum) :
    |sumAmounts (custom_formula_allocation tbl shared_app_id month_start
        total_cost sector_usage).1 - sumAmounts tbl - total_cost|
      ≤ (sector_usage.length : ℚ) * (1 / 200) := by
  have hnil : sector_usage ≠ [] := by
    intro he
    rw [he] at hU
    simp at hU
  have hlen : sector_usage.length ≠ 0 := fun he => hnil (List.length_eq_zero.mp he)
  have hnq : (sector_usage.length : ℚ) ≠ 0 := Nat.cast_ne_zero.mpr hlen
  have hUne : (sector_usage.map (fun su => su.2)).sum ≠ 0 := ne_of_gt hU
  unfold custom_formula_allocation
  simp only [htc, if_false, hU, if_true, List.length_map, hlen, ne_eq,
    not_false_iff]
  obtain ⟨h1, h2, h3⟩ := foldl_upsert_pair month_start shared_app_id
    "allocated_custom_formula"
    (fun x => round2 (total_cost * 0.4 * (x.2 / (sector_usage.map (fun su => su.2)).sum)
        + total_cost * 0.6 / (sector_usage.length : ℚ)))
    sector_usage tbl 0 h
  rw [h1]
  have hshare : (sector_usage.map
      (fun x => total_cost * 0.4 * (x.2 / (sector_usage.map (fun su => su.2)).sum)
        + total_cost * 0.6 / (sector_usage.length : ℚ))).sum = total_cost := by
    rw [sum_map_addc
      (fun x => total_cost * 0.4 * (x.2 / (sector_usage.map (fun su => su.2)).sum))
      (total_cost * 0.6 / (sector_usage.length : ℚ)) sector_usage]
    have hfe : (fun x : Nat × ℚ =>
        total_cost * 0.4 * (x.2 / (sector_usage.map (fun su => su.2)).sum))
        = fun x => (total_cost * 0.4 / (sector_usage.map (fun su => su.2)).sum) * x.2 :=
      funext fun x => by ring
    rw [hfe, List.sum_map_mul_left, div_mul_cancel₀ (total_cost * 0.4) hUne]
    have hc : (sector_usage.length : ℚ) * (total_cost * 0.6 / (sector_usage.length : ℚ))
        = total_cost * 0.6 := by
      rw [mul_comm]
      exact div_mul_cancel₀ (total_cost * 0.6) hnq
    rw [hc]
    calc total_cost * 0.4 + total_cost * 0.6 = total_cost * (0.4 + 0.6) := by ring
      _ = total_cost * 1 := by norm_num
      _ = total_cost := mul_one total_cost
  have hb := sum_round2_bound
    (fun x => total_cost * 0.4 * (x.2 / (sector_usage.map (fun su => su.2)).sum)
      + total_cost * 0.6 / (sector_usage.length : ℚ)) sector_usage
  have heq : sumAmounts tbl + (sector_usage.map
        (fun x => round2 (total_cost * 0.4 * (x.2 / (sector_usage.map (fun su => su.2)).sum)
          + total_cost * 0.6 / (sector_usage.length : ℚ)))).sum
        - sumAmounts tbl - total_cost
      = (sector_usage.map
          (fun x => round2 (total_cost * 0.4 * (x.2 / (sector_usage.map (fun su => su.2)).sum)
            + total_cost * 0.6 / (sector_usage.length : ℚ)))).sum
        - (sector_usage.map
            (fun x => total_cost * 0.4 * (x.2 / (sector_usage.map (fun su => su.2)).sum)
              + total_cost * 0.6 / (sector_usage.length : ℚ))).sum := by
    rw [hshare]
    ring
  rw [heq]
  exact hb

/-- Counterexample to claim C4.  With total cost 1000 and one consumer
group whose usage is 0, the blended strategy does write an allocation (one
row), but only the 60% equal-split portion: the written sum is 600, off by
400 — far beyond the 1-group tolerance of 0.005. -/
theorem C4_counterexample :
    (custom_formula_allocation [] 9 1 1000 [(1, 0)]).2 = 1 ∧
    sumAmounts (custom_formula_allocation [] 9 1 1000 [(1, 0)]).1 = 600 ∧
    ¬ (|sumAmounts (custom_formula_allocation [] 9 1 1000 [(1, 0)]).1
          - sumAmounts ([] : List CbRow) - 1000|
        ≤ (([(1, (0 : ℚ))].length : ℚ)) * (1 / 200)) :=
  of_decide_eq_true (by with_unfolding_all rfl)

/-- Claim C4 as amended.  Over a chargeback table respecting the
ON CONFLICT unique key, whenever a strategy writes its allocations the
written per-group amounts sum to the total cost within
`count(groups) * 0.005`: unconditionally so (given a non-zero cost and the
writing condition) for proportional-by-usage and equal-split, and for the
blended 40/60 strategy under the additional hypothesis that the groups'
total usage is positive — when groups exist but their total usage is 0,
blended distributes only the 60% equal portion and conservation fails. -/
theorem C4_allocation_conservation :
    (∀ (tbl : List CbRow) (shared_app_id month_start : Nat) (total_cost : ℚ)
        (sector_usage : List (Nat × ℚ)), uniqueKeys tbl → total_cost ≠ 0 →
        (sector_usage.map (fun su => su.2)).sum ≠ 0 →
        |sumAmounts (proportional_allocation tbl shared_app_id month_start
            total_cost sector_usage).1 - sumAmounts tbl - total_cost|
          ≤ (sector_usage.length : ℚ) * (1 / 200)) ∧
    (∀ (tbl : List CbRow) (shared_app_id month_start : Nat) (total_cost : ℚ)
        (active_sectors : List Nat), uniqueKeys tbl → total_cost ≠ 0 →
        active_sectors ≠ [] →
        |sumAmounts (equal_split_allocation tbl shared_app_id month_start
            total_cost active_sectors).1 - sumAmounts tbl - total_cost|
          ≤ (active_sectors.length : ℚ) * (1 / 200)) ∧
    (∀ (tbl : List CbRow) (shared_app_id month_start : Nat) (total_cost : ℚ)
        (sector_usage : List (Nat × ℚ)), uniqueKeys tbl → total_cost ≠ 0 →
        0 < (sector_usage.map (fun su => su.2)).sum →
        |sumAmounts (custom_formula_allocation tbl shared_app_id month_start
            total_cost sector_usage).1 - sumAmounts tbl - total_cost|
          ≤ (sector_usage.length : ℚ) * (1 / 200)) :=
  ⟨proportional_conserves, equal_split_conserves, custom_formula_conserves⟩

theorem C4_allocation_conservation_witness :
    (uniqueKeys ([] : List CbRow) ∧ (1000 : ℚ) ≠ 0 ∧
      (([(1, (100 : ℚ)), (2, 300), (3, 600)].map (fun su => su.2)).sum ≠ 0) ∧
      |sumAmounts (proportional_allocation [] 9 1 1000
          [(1, 100), (2, 300), (3, 600)]).1 - sumAmounts [] - 1000|
        ≤ (([(1, (100 : ℚ)), (2, 300), (3, 600)].length : ℚ)) * (1 / 200)) ∧
    (|sumAmounts (equal_split_allocation [] 9 1 1000 [1, 2, 3]).1
        - sumAmounts [] - 1000| ≤ (([1, 2, 3].length : ℚ)) * (1 / 200)) ∧
    (0 < ([(1, (100 : ℚ)), (2, 300), (3, 600)].map (fun su => su.2)).sum ∧
      |sumAmounts (custom_formula_allocation [] 9 1 1000
          [(1, 100), (2, 300), (3, 600)]).1 - sumAmounts [] - 1000|
        ≤ (([(1, (100 : ℚ)), (2, 300), (3, 600)].length : ℚ)) * (1 / 200)) :=
  ⟨⟨by decide, of_decide_eq_true (by with_unfolding_all rfl),
    of_decide_eq_true (by with_unfolding_all rfl),
    C4_allocation_conservation.1 [] 9 1 1000 [(1, 100), (2, 300), (3, 600)] (by decide)
      (of_decide_eq_true (by with_unfolding_all rfl))
      (of_decide_eq_true (by with_unfolding_all rfl))⟩,
   C4_allocation_conservation.2.1 [] 9 1 1000 [1, 2, 3] (by decide)
     (of_decide_eq_true (by with_unfolding_all rfl)) (by decide),
   ⟨of_decide_eq_true (by with_unfolding_all rfl),
    C4_allocation_conservation.2.2 [] 9 1 1000 [(1, 100), (2, 300), (3, 600)] (by decide)
      (of_decide_eq_true (by with_unfolding_all rfl))
      (of_decide_eq_true (by with_unfolding_all rfl))⟩⟩

/-! ## C8: accumulate-on-conflict semantics -/

def cbRowC8 : CbRow :=
  { month_start := 1, app_id := 2, sector_id := 3, owner_id := 1, usd_amount := 5,
    chargeback_cycle := "allocated_equal_split" }

/-- Counterexample to claim C8.  Writing amount 3 with strategy marker
"allocated_custom_formula" onto an existing record accumulates the amount
(5 + 3 = 8) but leaves the stored strategy marker at its old value
"allocated_equal_split": ON CONFLICT DO UPDATE only touches `usd_amount`,
so the `strategy_used` part of the claim fails. -/
theorem C8_counterexample :
    chargeback_upsert [cbRowC8] 1 2 3 3 "allocated_custom_formula"
      = [{ month_start := 1, app_id := 2, sector_id := 3, owner_id := 1, usd_amount := 8,
           chargeback_cycle := "allocated_equal_split" }] ∧
    "allocated_equal_split" ≠ "allocated_custom_formula" :=
  of_decide_eq_true (by with_unfolding_all rfl)

/-- Claim C8 as amended.  For every write against an existing record with
the same (period, shared entity, group) key, the stored amount becomes the
previous amount plus the new amount (accumulate, not overwrite), while the
record's strategy marker keeps its previous value — it is not updated to
the newly supplied strategy name; only a fresh insert records the supplied
strategy name (and amount). -/
theorem C8_upsert_accumulates (tbl : List CbRow) (m a s2 : Nat) (amt : ℚ) (cyc : String) :
    (∀ r ∈ tbl, cbKeyMatch m a s2 r = true →
      ({ r with usd_amount := r.usd_amount + amt } : CbRow)
          ∈ chargeback_upsert tbl m a s2 amt cyc ∧
      ({ r with usd_amount := r.usd_amount + amt } : CbRow).chargeback_cycle
        = r.chargeback_cycle) ∧
    (tbl.any (cbKeyMatch m a s2) = false →
      chargeback_upsert tbl m a s2 amt cyc
        = tbl ++ [{ month_start := m, app_id := a, sector_id := s2, owner_id := 1,
                    usd_amount := amt, chargeback_cycle := cyc }]) := by
  constructor
  · intro r hr hk
    refine ⟨?_, rfl⟩
    unfold chargeback_upsert
    rw [if_pos (List.any_eq_true.mpr ⟨r, hr, hk⟩)]
    rw [List.mem_map]
    exact ⟨r, hr, by rw [if_pos hk]⟩
  · intro hfalse
    unfold chargeback_upsert
    rw [if_neg (by simp [hfalse])]

theorem C8_upsert_accumulates_witness :
    cbRowC8 ∈ [cbRowC8] ∧ cbKeyMatch 1 2 3 cbRowC8 = true ∧
    (({ cbRowC8 with usd_amount := cbRowC8.usd_amount + 3 } : CbRow)
        ∈ chargeback_upsert [cbRowC8] 1 2 3 3 "allocated_custom_formula" ∧
      ({ cbRowC8 with usd_amount := cbRowC8.usd_amount + 3 } : CbRow).chargeback_cycle
        = cbRowC8.chargeback_cycle) :=
  ⟨by decide, by decide,
   (C8_upsert_accumulates [cbRowC8] 1 2 3 3 "allocated_custom_formula").1 cbRowC8
     (by decide) (by decide)⟩
